import Mathlib

/-!
Verification of the ARRL baseline training driver (main.py) against its
natural-language specification.  The driver orchestrates adversarial
robust-MDP training: rollout collection, alternating protagonist and
adversary updates, adaptive parameter noise, periodic evaluation, and a
dataset export at run end.

The pure fragments of the driver are embedded as Lean functions.  The few
collaborator functions that live outside the provided source (ddpg.py,
param_noise.py, normalized_actions.py) are modelled from the specification
and marked as such in their doc comments.
-/

namespace Arrl

/-- The three robust-MDP methods accepted by the method flag
(main.py line 77). -/
inductive Method where
  | mdp
  | pr_mdp
  | nr_mdp
  deriving DecidableEq

/-- Default of the ratio command-line flag (main.py line 78): the parser is
declared with default 1, so an absent flag parses to 1 and a supplied flag
parses to its value. -/
def parsedRatio (userRatio : Option Int) : Int :=
  userRatio.getD 1

/-- Line 92 of main.py: the parsed ratio is reassigned to 10 when the method
is pr_mdp and to 1 otherwise, unconditionally overwriting whatever was
parsed before it. -/
def effectiveRatio (method : Method) (ratioIn : Int) : Int :=
  if method = Method.pr_mdp then 10 else 1

/-- Line 184 of main.py: the driver increments the ratio by one before the
training loop, with the comment that this is for computational reasons
related to the modulo operation. -/
def driverRatioAdjust (ratio : Nat) : Nat :=
  ratio + 1

/-- Line 238 of main.py: the update-gating boolean recomputed on every
training update step from the adjusted ratio, the flip flag and the running
counter of update steps. -/
def adversary_update (ratioAdj : Nat) (flip_ratio : Bool) (train_steps : Nat) : Bool :=
  (train_steps % ratioAdj == 0 && !flip_ratio) || (train_steps % ratioAdj != 0 && flip_ratio)

/-- The two optimizable policies of the agent. -/
inductive Player where
  | protagonist
  | adversary
  deriving DecidableEq

/-- Modelled from the spec: DDPG.update_parameters lives in ddpg.py, which is
not part of the provided source; spec section 4.3 step 3 says exactly one of
the two players is optimized per call, selected by the adversary_update
boolean. -/
def optimizedPlayer (adversaryUpdate : Bool) : Player :=
  if adversaryUpdate then Player.adversary else Player.protagonist

/-- Lines 225 and 226 of main.py: the update phase of a cycle is guarded by a
strict comparison of the replay length against the batch size; inside the
guard the inner loop runs number_of_train_steps gradient updates, and outside
it nothing of the update phase runs.  The function returns the number of
gradient updates the cycle executes. -/
def updatePhaseTrainSteps (memLen batch_size number_of_train_steps : Nat) : Nat :=
  if memLen > batch_size then number_of_train_steps else 0

/-- Filesystem failures that os.makedirs can raise, the already-exists case
kept distinct from the rest. -/
inductive OsError where
  | fileExists
  | permissionDenied
  | diskFull
  | otherFailure
  deriving DecidableEq

/-- Lines 142 to 145 of main.py: the call to os.makedirs on the checkpoint
base directory is wrapped in a try block whose bare except clause does
nothing, so every possible failure of the call is swallowed. -/
def makedirsGuard (result : Except OsError Unit) : Except OsError Unit :=
  match result with
  | Except.ok u => Except.ok u
  | Except.error _ => Except.ok ()

/-- Whether the run survives the checkpoint-directory creation with the given
makedirs outcome. -/
def runContinuesAfterMakedirs (result : Except OsError Unit) : Bool :=
  match makedirsGuard result with
  | Except.ok _ => true
  | Except.error _ => false

/-- Lines 163 to 167 of main.py: the epoch count.  When num_steps is given,
an assertion demands that num_epochs is absent (the value none models the
assertion aborting the run) and the epoch count is the floor quotient of
num_steps by the product of cycles per epoch and rollout steps per cycle;
when num_steps is absent the epoch count is the literal 500. -/
def nb_epochs (num_steps num_epochs : Option Nat)
    (num_epochs_cycles num_rollout_steps : Nat) : Option Nat :=
  match num_steps with
  | some n =>
      if num_epochs = none then some (n / (num_epochs_cycles * num_rollout_steps)) else none
  | none => some 500

/-- Lines 189 to 193 of main.py: the nested epoch, cycle and rollout loops
run exactly epochs times cycles times rollout-steps training rollout steps
over the whole run. -/
def totalRolloutSteps (nbEpochs num_epochs_cycles num_rollout_steps : Nat) : Nat :=
  nbEpochs * num_epochs_cycles * num_rollout_steps

/-- Claim C1: on every training update call exactly one of protagonist and
adversary is selected for optimization via the adversary_update boolean, and
the driver computes that boolean on the modulo period of train_steps by
ratio plus one: with flip_ratio false it is true exactly when the remainder
is zero, with flip_ratio true exactly when the remainder is nonzero, the
ratio being the configured value before the +1 adjustment of line 184. -/
theorem adversary_update_cadence (ratio train_steps : Nat) :
    (adversary_update (driverRatioAdjust ratio) false train_steps = true
      ↔ train_steps % (ratio + 1) = 0)
    ∧ (adversary_update (driverRatioAdjust ratio) true train_steps = true
      ↔ train_steps % (ratio + 1) ≠ 0)
    ∧ ∀ flip_ratio : Bool,
        (optimizedPlayer (adversary_update (driverRatioAdjust ratio) flip_ratio train_steps)
            = Player.adversary
          ↔ ¬ optimizedPlayer (adversary_update (driverRatioAdjust ratio) flip_ratio train_steps)
            = Player.protagonist) := by
  refine ⟨?_, ?_, ?_⟩
  · simp [adversary_update, driverRatioAdjust]
  · simp [adversary_update, driverRatioAdjust]
  · intro flip_ratio
    cases h : adversary_update (driverRatioAdjust ratio) flip_ratio train_steps <;>
      simp [optimizedPlayer]

/-- Concrete instance of the C1 cadence theorem: with configured ratio 1 the
adjusted modulus is 2, and update step 0 selects the adversary when
flip_ratio is false. -/
theorem adversary_update_cadence_witness :
    adversary_update (driverRatioAdjust 1) false 0 = true :=
  (adversary_update_cadence 1 0).1.mpr (by decide)

/-- Claim C2 counterexample: a user-supplied ratio of 7 under method nr_mdp
is not respected; line 92 replaces it with 1. -/
theorem effectiveRatio_ignores_user_value :
    effectiveRatio Method.nr_mdp (parsedRatio (some 7)) = 1 ∧ (7 : Int) ≠ 1 := by
  exact ⟨rfl, by decide⟩

/-- Claim C2 amended: the ratio reaching the training loop is a function of
the method alone, 10 for pr_mdp and 1 for every other method; a
user-supplied ratio value is parsed but unconditionally overwritten on
line 92, so it never influences the effective ratio. -/
theorem effectiveRatio_method_only (method : Method) (u v : Option Int) :
    effectiveRatio method (parsedRatio u) = effectiveRatio method (parsedRatio v)
    ∧ effectiveRatio Method.pr_mdp (parsedRatio u) = 10
    ∧ (method ≠ Method.pr_mdp → effectiveRatio method (parsedRatio u) = 1) := by
  refine ⟨rfl, rfl, ?_⟩
  intro h
  cases method with
  | mdp => rfl
  | pr_mdp => exact absurd rfl h
  | nr_mdp => rfl

/-- Concrete instance of the C2 amended theorem: whether the user passes 5 or
nothing, method nr_mdp yields effective ratio 1. -/
theorem effectiveRatio_method_only_witness :
    effectiveRatio Method.nr_mdp (parsedRatio (some 5)) = 1 :=
  (effectiveRatio_method_only Method.nr_mdp (some 5) none).2.2 (by decide)

/-- Claim C4 counterexample: with the default batch size 64, a replay buffer
holding exactly 64 transitions is not underfull in the sense of the claim,
yet the cycle executes zero of its 50 configured gradient updates because
the guard on line 225 is strict. -/
theorem updatePhase_boundary_counterexample :
    ¬ (64 < 64) ∧ updatePhaseTrainSteps 64 64 50 = 0 := by
  exact ⟨by decide, rfl⟩

/-- Claim C4 amended: the update phase of a cycle is a no-op exactly when the
replay buffer holds at most batch_size transitions (the guard is a strict
greater-than), and whenever the buffer holds strictly more than batch_size
transitions the cycle runs its number_of_train_steps gradient updates. -/
theorem updatePhase_guard (memLen batch_size number_of_train_steps : Nat) :
    (memLen ≤ batch_size → updatePhaseTrainSteps memLen batch_size number_of_train_steps = 0)
    ∧ (batch_size < memLen →
        updatePhaseTrainSteps memLen batch_size number_of_train_steps = number_of_train_steps)
    ∧ (updatePhaseTrainSteps memLen batch_size number_of_train_steps = 0
        ∨ updatePhaseTrainSteps memLen batch_size number_of_train_steps
            = number_of_train_steps) := by
  refine ⟨?_, ?_, ?_⟩
  · intro h
    simp [updatePhaseTrainSteps, Nat.not_lt.mpr h]
  · intro h
    simp [updatePhaseTrainSteps, h]
  · by_cases h : batch_size < memLen
    · exact Or.inr (by simp [updatePhaseTrainSteps, h])
    · exact Or.inl (by simp [updatePhaseTrainSteps, h])

/-- Concrete instance of the C4 amended theorem: at replay length 64 and
batch size 64 the cycle runs zero updates, at replay length 65 it runs all
fifty. -/
theorem updatePhase_guard_witness :
    updatePhaseTrainSteps 64 64 50 = 0 ∧ updatePhaseTrainSteps 65 64 50 = 50 :=
  ⟨(updatePhase_guard 64 64 50).1 (by decide), (updatePhase_guard 65 64 50).2.1 (by decide)⟩

/-- Claim C5 counterexample: a permission-denied failure of os.makedirs is
not the already-exists condition, yet the run continues, because the bare
except clause on line 144 swallows it. -/
theorem makedirs_failure_counterexample :
    runContinuesAfterMakedirs (Except.error OsError.permissionDenied) = true
    ∧ OsError.permissionDenied ≠ OsError.fileExists := by
  exact ⟨rfl, by decide⟩

/-- Claim C5 amended: every outcome of creating the checkpoint base
directory is treated as benign, the already-exists condition and every other
filesystem failure alike; the bare except clause swallows all of them and
the run always continues. -/
theorem makedirs_all_failures_benign (result : Except OsError Unit) :
    runContinuesAfterMakedirs result = true := by
  cases result with
  | ok u => rfl
  | error e => rfl

/-- Claim C9: when num_steps is provided the driver asserts that num_epochs
is absent, sets the epoch count to the floor quotient of num_steps by the
product of cycles per epoch and rollout steps per cycle, and hence the total
number of training rollout steps of the run never exceeds num_steps; when
num_steps is absent the run executes exactly 500 epochs. -/
theorem nb_epochs_spec (n num_epochs_cycles num_rollout_steps : Nat) (ne : Option Nat)
    (hpos : 0 < num_epochs_cycles * num_rollout_steps) :
    nb_epochs (some n) none num_epochs_cycles num_rollout_steps
      = some (n / (num_epochs_cycles * num_rollout_steps))
    ∧ (ne ≠ none → nb_epochs (some n) ne num_epochs_cycles num_rollout_steps = none)
    ∧ totalRolloutSteps (n / (num_epochs_cycles * num_rollout_steps))
        num_epochs_cycles num_rollout_steps ≤ n
    ∧ nb_epochs none ne num_epochs_cycles num_rollout_steps = some 500 := by
  refine ⟨rfl, ?_, ?_, rfl⟩
  · intro h
    simp [nb_epochs, h]
  · unfold totalRolloutSteps
    rw [Nat.mul_assoc]
    exact Nat.div_mul_le_self n (num_epochs_cycles * num_rollout_steps)

/-- Concrete instance of the C9 theorem at the default configuration: two
million steps, twenty cycles per epoch, one hundred rollout steps per cycle
give exactly one thousand epochs and exactly two million rollout steps. -/
theorem nb_epochs_spec_witness :
    nb_epochs (some 2000000) none 20 100 = some (2000000 / (20 * 100))
    ∧ totalRolloutSteps (2000000 / (20 * 100)) 20 100 ≤ 2000000 := by
  have h := nb_epochs_spec 2000000 20 100 none (by decide)
  exact ⟨h.1, h.2.2.1⟩

/-- Arithmetic mean of a list of rationals, as np.mean computes it on a
non-empty list; the Lean convention of division by zero makes the empty case
0. -/
def listMean (l : List ℚ) : ℚ :=
  l.sum / (l.length : ℚ)

/-- The mutable loss bookkeeping of the driver: the three per-cycle
accumulator lists declared on lines 109 to 111 of main.py and the three
results_dict time series they feed. -/
structure LossBook where
  acc_value : List ℚ
  acc_policy : List ℚ
  acc_adversary : List ℚ
  res_value : List (Nat × ℚ)
  res_policy : List (Nat × ℚ)
  res_adversary : List (Nat × ℚ)
  deriving DecidableEq

/-- The inputs one cycle presents to the update-phase bookkeeping: the replay
length at the guard, the rollout-step counter recorded with the appended
entries, and the triple of losses each of the gradient updates of the cycle
returned. -/
structure CycleUpdate where
  memLen : Nat
  total_steps : Nat
  losses : List (ℚ × ℚ × ℚ)
  deriving DecidableEq

/-- Lines 225 to 254 of main.py: the loss bookkeeping of one cycle.  Under
the replay-length guard, each gradient update appends its value, policy and
adversary losses to the three accumulator lists; after the inner loop one
entry pairing total_steps with the mean of each accumulator is appended to
the corresponding results series and the three accumulators are emptied with
del.  When the guard fails nothing of this runs. -/
def cycleBookkeeping (batch_size : Nat) (b : LossBook) (c : CycleUpdate) : LossBook :=
  if c.memLen > batch_size then
    let av := b.acc_value ++ c.losses.map (fun t => t.1)
    let ap := b.acc_policy ++ c.losses.map (fun t => t.2.1)
    let aa := b.acc_adversary ++ c.losses.map (fun t => t.2.2)
    { acc_value := []
      acc_policy := []
      acc_adversary := []
      res_value := b.res_value ++ [(c.total_steps, listMean av)]
      res_policy := b.res_policy ++ [(c.total_steps, listMean ap)]
      res_adversary := b.res_adversary ++ [(c.total_steps, listMean aa)] }
  else b

/-- The loss bookkeeping folded over a whole run, starting from the empty
lists of lines 103 to 111 of main.py. -/
def runBookkeeping (batch_size : Nat) (cycles : List CycleUpdate) : LossBook :=
  cycles.foldl (cycleBookkeeping batch_size) ⟨[], [], [], [], [], []⟩

/-- The loss series the claim predicts: one entry per cycle that passed the
replay-length guard, pairing that cycle's total_steps with the mean of
exactly that cycle's losses under the given projection. -/
def expectedLossSeries (batch_size : Nat) (proj : ℚ × ℚ × ℚ → ℚ)
    (cycles : List CycleUpdate) : List (Nat × ℚ) :=
  (cycles.filter (fun c => batch_size < c.memLen)).map
    (fun c => (c.total_steps, listMean (c.losses.map proj)))

theorem runBookkeeping_from_empty (batch_size : Nat) (cycles : List CycleUpdate)
    (rv rp ra : List (Nat × ℚ)) :
    cycles.foldl (cycleBookkeeping batch_size) ⟨[], [], [], rv, rp, ra⟩
      = ⟨[], [], [],
          rv ++ expectedLossSeries batch_size (fun t => t.1) cycles,
          rp ++ expectedLossSeries batch_size (fun t => t.2.1) cycles,
          ra ++ expectedLossSeries batch_size (fun t => t.2.2) cycles⟩ := by
  induction cycles generalizing rv rp ra with
  | nil => simp [expectedLossSeries]
  | cons c rest ih =>
      by_cases h : batch_size < c.memLen
      · simp only [List.foldl_cons, cycleBookkeeping, h, if_pos, List.nil_append]
        rw [ih]
        simp [expectedLossSeries, h, List.append_assoc]
      · simp only [List.foldl_cons, cycleBookkeeping, h, if_false]
        rw [ih]
        simp [expectedLossSeries, h]

/-- Claim C10: after every cycle the three loss accumulator lists are empty,
and each entry of the value, policy and adversary loss series pairs the
cycle's total_steps with the mean of exactly the losses produced by that
cycle's update phase; cycles whose update phase was skipped contribute no
entry.  The statement quantifies over every finite sequence of cycles, so in
particular every prefix of a run leaves the accumulators empty. -/
theorem loss_bookkeeping_exact (batch_size : Nat) (cycles : List CycleUpdate) :
    (runBookkeeping batch_size cycles).acc_value = []
    ∧ (runBookkeeping batch_size cycles).acc_policy = []
    ∧ (runBookkeeping batch_size cycles).acc_adversary = []
    ∧ (runBookkeeping batch_size cycles).res_value
        = expectedLossSeries batch_size (fun t => t.1) cycles
    ∧ (runBookkeeping batch_size cycles).res_policy
        = expectedLossSeries batch_size (fun t => t.2.1) cycles
    ∧ (runBookkeeping batch_size cycles).res_adversary
        = expectedLossSeries batch_size (fun t => t.2.2) cycles := by
  have h := runBookkeeping_from_empty batch_size cycles [] [] []
  unfold runBookkeeping
  rw [h]
  simp

/-- Action vectors are fixed-length real vectors, modelled as lists of
rationals. -/
abbrev Vec := List ℚ

/-- Modelled from the spec: the combination rule of DDPG.select_action, which
lives in ddpg.py outside the provided source (spec section 4.2).  Method mdp
returns the protagonist mean and ignores the adversary; pr_mdp returns the
adversary mean when the per-call Bernoulli draw (an explicit argument here)
fires and the protagonist mean otherwise; nr_mdp returns the convex
combination weighted by alpha. -/
def combineActions (mdp_type : Method) (alpha : ℚ) (bernoulliAdv : Bool)
    (pr_mu adv_mu : Vec) : Vec :=
  match mdp_type with
  | Method.mdp => pr_mu
  | Method.pr_mdp => if bernoulliAdv then adv_mu else pr_mu
  | Method.nr_mdp => List.zipWith (fun p a => (1 - alpha) * p + alpha * a) pr_mu adv_mu

/-- Modelled from the spec: when an OU noise process is supplied its sample
is added to the combined action (spec section 4.2). -/
def addActionNoise (noise : Option Vec) (a : Vec) : Vec :=
  match noise with
  | some z => List.zipWith (fun x y => x + y) a z
  | none => a

/-- Modelled from the spec: the final action is clipped to the normalized
legal action range, -1 to 1 (spec section 4.2). -/
def clipAction (a : Vec) : Vec :=
  a.map (fun x => max (-1) (min 1 x))

/-- Modelled from the spec: DDPG.select_action (spec section 4.2): combine
the protagonist and adversary mean actions according to the mdp type, add
the OU sample when one is supplied, and clip.  The protagonist mean passed
in is the output of the possibly parameter-perturbed policy network. -/
def select_action (pr_mu adv_mu : Vec) (mdp_type : Method) (alpha : ℚ)
    (bernoulliAdv : Bool) (action_noise : Option Vec) : Vec :=
  clipAction (addActionNoise action_noise (combineActions mdp_type alpha bernoulliAdv pr_mu adv_mu))

/-- Line 258 of main.py: evaluation-phase action selection.  The call passes
the evaluation state, the literal mdp as the mdp type, and no noise process
of either kind, whatever method and exploration method the run was
configured with. -/
def evalActionSelection (pr_mu adv_mu : Vec) (alpha : ℚ) (bernoulliAdv : Bool) : Vec :=
  select_action pr_mu adv_mu Method.mdp alpha bernoulliAdv none

/-- Claim C7: every evaluation-phase action selection uses the mdp type mdp
and no exploration noise, so for any configured method and exploration
method the evaluation action is the clipped protagonist mean: the adversary
mean and every noise source have no influence.  The configured methods
appear as quantified arguments precisely to record that the result does not
depend on them. -/
theorem eval_action_is_policy_only (cfgMethod cfgExplorationMethod : Method)
    (pr_mu adv_mu : Vec) (alpha : ℚ) (bernoulliAdv : Bool) :
    evalActionSelection pr_mu adv_mu alpha bernoulliAdv = clipAction pr_mu
    ∧ evalActionSelection pr_mu adv_mu alpha bernoulliAdv
        = select_action pr_mu adv_mu Method.mdp alpha bernoulliAdv none := by
  exact ⟨rfl, rfl⟩

/-- The single underlying environment instance created by the one gym.make
call on line 95 of main.py, identified by a heap id; the mutable state of a
core is modelled as the count of steps it has executed. -/
def gymMakeCore : Nat := 0

/-- Modelled from the spec: NormalizedActions, defined in
normalized_actions.py outside the provided source, is the action-rescaling
gym wrapper of spec section 6; step and reset delegate to the wrapped
object, so a wrapper drives the same underlying core as whatever it wraps.
A wrapper is modelled by the id of the core it ultimately drives. -/
structure NormalizedActions where
  core : Nat
  deriving DecidableEq

/-- Line 97 of main.py: the training environment wraps the gym.make
instance. -/
def trainEnv : NormalizedActions :=
  ⟨gymMakeCore⟩

/-- Line 98 of main.py: the evaluation environment wraps the training
environment itself, not a fresh gym.make instance, so it delegates to the
very same core. -/
def evalEnv : NormalizedActions :=
  ⟨trainEnv.core⟩

/-- Stepping an environment wrapper advances the step counter of its
underlying core and leaves every other core untouched. -/
def stepEnv (heap : Nat → Nat) (e : NormalizedActions) : Nat → Nat :=
  fun i => if i = e.core then heap i + 1 else heap i

/-- Claim C6 exhibit: the evaluation environment constructed on line 98
shares its underlying core with the training environment, so executing one
evaluation step changes the state the training environment observes; the
evaluation phase is not isolated from training. -/
theorem eval_step_mutates_training_env (heap : Nat → Nat) :
    evalEnv.core = trainEnv.core
    ∧ stepEnv heap evalEnv trainEnv.core = heap trainEnv.core + 1
    ∧ stepEnv heap evalEnv trainEnv.core ≠ heap trainEnv.core := by
  refine ⟨rfl, ?_, ?_⟩
  · simp [stepEnv, evalEnv, trainEnv]
  · simp [stepEnv, evalEnv, trainEnv]

/-- Squared componentwise differences of two equal-shaped batches of action
vectors, flattened into one list. -/
def sqDiffs (a b : List Vec) : List ℚ :=
  (a.zip b).flatMap (fun p => (p.1.zip p.2).map (fun q => (q.1 - q.2) ^ 2))

/-- Modelled from the spec: ddpg_distance_metric, defined in param_noise.py
outside the provided source; spec section 4.1 describes it as the
root-mean-square difference between two batches of actions. -/
noncomputable def ddpg_distance_metric (a b : List Vec) : ℝ :=
  Real.sqrt ((listMean (sqDiffs a b) : ℚ) : ℝ)

theorem ddpg_distance_metric_rms (a b : List Vec) :
    0 ≤ ddpg_distance_metric a b
    ∧ ddpg_distance_metric a b ^ 2 = ((listMean (sqDiffs a b) : ℚ) : ℝ) := by
  have hnn : (0 : ℚ) ≤ listMean (sqDiffs a b) := by
    unfold listMean
    apply div_nonneg
    · apply List.sum_nonneg
      intro x hx
      unfold sqDiffs at hx
      rcases List.mem_flatMap.mp hx with ⟨p, _, hp⟩
      rcases List.mem_map.mp hp with ⟨q, _, hq⟩
      rw [← hq]
      exact sq_nonneg _
    · exact_mod_cast Nat.zero_le _
  constructor
  · exact Real.sqrt_nonneg _
  · exact Real.sq_sqrt (by exact_mod_cast hnn)

/-- Lines 227 to 236 of main.py: the adaptive-parameter-noise bookkeeping of
one training update step.  When param noise is enabled and train_steps is a
multiple of param_noise_interval, a fresh batch of transitions is sampled,
the batch's stored actions are taken as the perturbed actions, unperturbed
actions are recomputed on the batch's states by a select_action call with
mdp type mdp and no noise of either kind, and param_noise.adapt receives the
distance between the two; on every other step adapt is not called, which the
value none models.  A batch element pairs a stored state with the stored
action of the same transition. -/
noncomputable def paramNoiseAdaptCall (param_noise : Bool)
    (param_noise_interval train_steps : Nat) (batch : List (Vec × Vec))
    (pr_unpert adv_unpert : Vec → Vec) (alpha : ℚ) : Option ℝ :=
  if train_steps % param_noise_interval = 0 ∧ param_noise = true then
    some (ddpg_distance_metric (batch.map (fun t => t.2))
      ((batch.map (fun t => t.1)).map
        (fun s => select_action (pr_unpert s) (adv_unpert s) Method.mdp alpha false none)))
  else none

/-- Lines 194, 200 and 205 of main.py: the action stored in the replay
buffer is the full exploration action returned by select_action with the OU
noise process and the configured exploration method, that is the possibly
parameter-perturbed protagonist mean combined with the adversary mean and
with the OU sample added before clipping, not the bare output of the
perturbed policy. -/
def storedRolloutAction (pr_perturbed adv : Vec → Vec) (exploration_method : Method)
    (alpha : ℚ) (bernoulliAdv : Bool) (ouSample : Vec) (s : Vec) : Vec :=
  select_action (pr_perturbed s) (adv s) exploration_method alpha bernoulliAdv (some ouSample)

/-- Claim C3 counterexample: with constant policies that both output the
zero action, exploration method nr_mdp, alpha one tenth and an OU sample of
one half, the action stored during rollout is one half while the perturbed
policy's action on the same state is zero; at update step 0 the distance fed
to adapt is therefore the RMS between one half and zero, not the RMS between
the perturbed-policy actions and the unperturbed actions, which would be
zero.  The claim predicts the value on the right. -/
theorem paramNoise_distance_counterexample :
    paramNoiseAdaptCall true 50 0
        [([0], storedRolloutAction (fun _ => [0]) (fun _ => [0]) Method.nr_mdp
            (1 / 10) false [1 / 2] [0])]
        (fun _ => [0]) (fun _ => [0]) (1 / 10)
      ≠ some (ddpg_distance_metric [[0]] [[0]]) := by
  have hstored : storedRolloutAction (fun _ => [0]) (fun _ => [0]) Method.nr_mdp
      (1 / 10) false [1 / 2] ([0] : Vec) = [1 / 2] := by
    unfold storedRolloutAction select_action combineActions addActionNoise clipAction
    norm_num [List.zipWith, min_def, max_def]
  have hsel : select_action ([0] : Vec) ([0] : Vec) Method.mdp (1 / 10) false none
      = [0] := by
    unfold select_action combineActions addActionNoise clipAction
    norm_num [min_def, max_def]
  have hm1 : listMean (sqDiffs [[1 / 2]] [[0]]) = 1 / 4 := by
    unfold listMean sqDiffs
    norm_num [List.zip]
  have hm2 : listMean (sqDiffs [[0]] [[0]]) = 0 := by
    unfold listMean sqDiffs
    norm_num [List.zip]
  have hL : paramNoiseAdaptCall true 50 0
      [([0], storedRolloutAction (fun _ => [0]) (fun _ => [0]) Method.nr_mdp
          (1 / 10) false [1 / 2] [0])]
      (fun _ => [0]) (fun _ => [0]) (1 / 10)
      = some (Real.sqrt ((1 / 4 : ℚ) : ℝ)) := by
    unfold paramNoiseAdaptCall
    rw [if_pos ⟨by decide, rfl⟩]
    simp only [List.map_cons, List.map_nil]
    rw [hstored, hsel]
    unfold ddpg_distance_metric
    rw [hm1]
  have hR : some (ddpg_distance_metric [[0]] [[0]]) = some ((0 : ℝ)) := by
    unfold ddpg_distance_metric
    rw [hm2]
    simp
  rw [hL, hR]
  intro h
  have h2 := Option.some.inj h
  have hpos : (0 : ℝ) < Real.sqrt ((1 / 4 : ℚ) : ℝ) := by
    apply Real.sqrt_pos.mpr
    norm_num
  rw [h2] at hpos
  exact lt_irrefl 0 hpos

/-- Claim C3 amended: when adaptive parameter noise is enabled, adapt is
called exactly on the update steps where train_steps is a multiple of
param_noise_interval, and the distance it receives, computed before the
call, is the root-mean-square difference between the sampled batch's stored
rollout actions (the noised and adversary-mixed behavior actions recorded at
collection time, not bare perturbed-policy outputs) and the unperturbed
policy's actions recomputed on the same batch of states; on all other update
steps adapt is not called. -/
theorem paramNoiseAdaptCall_spec (param_noise : Bool)
    (param_noise_interval train_steps : Nat) (batch : List (Vec × Vec))
    (pr_unpert adv_unpert : Vec → Vec) (alpha : ℚ) :
    ((paramNoiseAdaptCall param_noise param_noise_interval train_steps batch
        pr_unpert adv_unpert alpha).isSome
      ↔ (train_steps % param_noise_interval = 0 ∧ param_noise = true))
    ∧ (train_steps % param_noise_interval = 0 → param_noise = true →
        paramNoiseAdaptCall param_noise param_noise_interval train_steps batch
            pr_unpert adv_unpert alpha
          = some (ddpg_distance_metric (batch.map (fun t => t.2))
              ((batch.map (fun t => t.1)).map
                (fun s => select_action (pr_unpert s) (adv_unpert s) Method.mdp alpha false none))))
    ∧ ∀ a b : List Vec,
        0 ≤ ddpg_distance_metric a b
        ∧ ddpg_distance_metric a b ^ 2 = ((listMean (sqDiffs a b) : ℚ) : ℝ) := by
  refine ⟨?_, ?_, fun a b => ddpg_distance_metric_rms a b⟩
  · unfold paramNoiseAdaptCall
    by_cases h : train_steps % param_noise_interval = 0 ∧ param_noise = true
    · rw [if_pos h]
      simpa using h
    · rw [if_neg h]
      simpa using h
  · intro h1 h2
    unfold paramNoiseAdaptCall
    rw [if_pos ⟨h1, h2⟩]

/-- Concrete instance of the C3 amended theorem: at update step 0 with
interval 50 and param noise enabled, adapt receives the distance between the
stored action and the recomputed unperturbed action of the one-element
batch. -/
theorem paramNoiseAdaptCall_spec_witness :
    (0 : Nat) % 50 = 0
    ∧ paramNoiseAdaptCall true 50 0 [([1], [1])] (fun s => s) (fun s => s) 0
        = some (ddpg_distance_metric (([([1], [1])] : List (Vec × Vec)).map (fun t => t.2))
            ((([([1], [1])] : List (Vec × Vec)).map (fun t => t.1)).map
              (fun s => select_action s s Method.mdp 0 false none))) :=
  ⟨by decide,
    (paramNoiseAdaptCall_spec true 50 0 [([1], [1])] (fun s => s) (fun s => s) 0).2.1
      (by decide) rfl⟩

/-- One rollout step's observables (main.py lines 194 to 221): the reward,
the pre-step state, the done and trunc flags and the info dict returned by
the environment step, and the protagonist and adversary mean actions
returned by select_action at that step.  Scalar payloads are integers so
that concrete runs are decidable. -/
structure StepData where
  reward : Int
  state : List Int
  done : Bool
  trunc : Bool
  info : Int
  pr_mu : List Int
  adv_mu : List Int
  deriving DecidableEq

/-- A pending partial record, the hacky_indict dictionary between steps: the
previous step's reward, state, done flag and info, awaiting the mean actions
of the following step. -/
structure PendingRecord where
  reward : Int
  state : List Int
  done : Bool
  info : Int
  deriving DecidableEq

/-- A completed dataset record as appended to hacky_store under an episode
index. -/
structure DataRecord where
  reward : Int
  state : List Int
  done : Bool
  info : Int
  pr_action : List Int
  adv_action : List Int
  deriving DecidableEq

/-- The pending record staged from a step, line 210 of main.py. -/
def pendOf (d : StepData) : PendingRecord :=
  ⟨d.reward, d.state, d.done, d.info⟩

/-- Completion of a pending record with the mean actions of the step that
follows it, lines 207 to 208 of main.py. -/
def recOf (p : PendingRecord) (d : StepData) : DataRecord :=
  ⟨p.reward, p.state, p.done, p.info, d.pr_mu, d.adv_mu⟩

/-- The episode-boundary condition of line 216 of main.py. -/
def terminalFlag (d : StepData) : Bool :=
  d.done || d.trunc

/-- The dataset bookkeeping state of main.py lines 185 to 187: hacky_store
flattened to episode-index and record pairs in append order, the episode
counter ep, and the pending hacky_indict. -/
structure HackyState where
  store : List (Nat × DataRecord)
  ep : Nat
  pending : Option PendingRecord
  deriving DecidableEq

/-- Lines 206 to 222 of main.py, the per-rollout-step dataset bookkeeping:
when a pending record exists, complete it with this step's mean actions and
append it under the current episode index; stage this step's reward, state,
done flag and info as the new pending record; when the step terminated or
truncated the episode, advance the episode counter and drop the pending
record. -/
def hackyStep (st : HackyState) (d : StepData) : HackyState :=
  let store1 := match st.pending with
    | some p => st.store ++ [(st.ep, recOf p d)]
    | none => st.store
  if terminalFlag d then ⟨store1, st.ep + 1, none⟩
  else ⟨store1, st.ep, some (pendOf d)⟩

/-- The dataset bookkeeping folded over the whole sequence of training
rollout steps of a run, from the initial empty store, episode 0 and no
pending record. -/
def hackyRun (steps : List StepData) : HackyState :=
  steps.foldl hackyStep ⟨[], 0, none⟩

/-- Lines 281 to 285 of main.py: the dataset serialization performed after
the training loop; the store is dumped to one file, once. -/
def datasetDumps (steps : List StepData) : List (List (Nat × DataRecord)) :=
  [(hackyRun steps).store]

/-- A concrete non-terminal rollout step used in concrete runs below. -/
def stepA : StepData :=
  ⟨1, [5], false, false, 7, [10], [20]⟩

/-- A concrete terminal rollout step used in concrete runs below. -/
def stepB : StepData :=
  ⟨2, [6], true, false, 8, [11], [21]⟩

/-- Claim C8 counterexample: an episode of two rollout steps yields exactly
one exported record, not one per step, and that record pairs the first
step's reward, state, done flag and info with the mean actions of the second
step, not with the first step's own mean actions; the terminal step's data
is never exported. -/
theorem dataset_export_counterexample :
    (hackyRun [stepA, stepB]).store = [(0, ⟨1, [5], false, 7, [11], [21]⟩)]
    ∧ (hackyRun [stepA, stepB]).store.length ≠ 2
    ∧ ∀ r ∈ (hackyRun [stepA, stepB]).store,
        r.2.pr_action ≠ stepA.pr_mu ∧ r.2.reward = stepA.reward := by
  refine ⟨by decide, by decide, by decide⟩

/-- The records the driver produces for one episode: consecutive steps of
the episode are zipped, each pair contributing one record under the episode
index that joins the data of the earlier step with the mean actions of the
later one; the final step of the episode begins no record. -/
def epRecords (i : Nat) (epi : List StepData) : List (Nat × DataRecord) :=
  (epi.zip epi.tail).map (fun q => (i, recOf (pendOf q.1) q.2))

/-- The full expected store for a list of complete episodes, the episode at
position k of the list indexed k plus the starting index. -/
def expectedStoreFrom (n : Nat) (episodes : List (List StepData)) : List (Nat × DataRecord) :=
  match episodes with
  | [] => []
  | e :: rest => epRecords n e ++ expectedStoreFrom (n + 1) rest

/-- The full expected store for a list of complete episodes, indexed from
episode 0. -/
def expectedStore (episodes : List (List StepData)) : List (Nat × DataRecord) :=
  expectedStoreFrom 0 episodes

/-- A complete episode: non-empty, terminal exactly at its last step. -/
def completeEpisode (epi : List StepData) : Bool :=
  !epi.isEmpty && epi.dropLast.all (fun d => !terminalFlag d)
    && ((epi.getLast?.map terminalFlag).getD false)

/-- The records appended while folding the suffix of an episode from a
pending record p under episode index i: every step closes the pending record
it finds with its own mean actions. -/
def chainRecords (i : Nat) (p : PendingRecord) (l : List StepData) : List (Nat × DataRecord) :=
  ((p :: l.map pendOf).zip l).map (fun q => (i, recOf q.1 q.2))

theorem chainRecords_cons (i : Nat) (p : PendingRecord) (d : StepData) (l : List StepData) :
    chainRecords i p (d :: l) = (i, recOf p d) :: chainRecords i (pendOf d) l := by
  rfl

theorem expectedStoreFrom_cons (n : Nat) (e : List StepData) (rest : List (List StepData)) :
    expectedStoreFrom n (e :: rest) = epRecords n e ++ expectedStoreFrom (n + 1) rest := by
  rfl

theorem epRecords_eq_chain (i : Nat) (d : StepData) (rest : List StepData) :
    epRecords i (d :: rest) = chainRecords i (pendOf d) rest := by
  unfold epRecords chainRecords
  simp only [List.tail_cons]
  induction rest generalizing d with
  | nil => rfl
  | cons e rest2 ih =>
      simp only [List.zip_cons_cons, List.map_cons]
      exact congrArg (List.cons (i, recOf (pendOf d) e)) (ih e)

theorem hackyFold_tail (l : List StepData) :
    ∀ (st : List (Nat × DataRecord)) (n : Nat) (p : PendingRecord),
      l ≠ [] →
      l.dropLast.all (fun d => !terminalFlag d) = true →
      (l.getLast?.map terminalFlag).getD false = true →
      List.foldl hackyStep ⟨st, n, some p⟩ l = ⟨st ++ chainRecords n p l, n + 1, none⟩ := by
  induction l with
  | nil => intro st n p hne _ _; exact absurd rfl hne
  | cons d rest ih =>
      intro st n p _ hbody hlast
      cases rest with
      | nil =>
          have hterm : terminalFlag d = true := by
            simpa using hlast
          simp [hackyStep, hterm, chainRecords]
      | cons e rest2 =>
          have hd : terminalFlag d = false := by
            have : (!terminalFlag d) = true := by
              have := List.all_eq_true.mp hbody d (by simp [List.dropLast])
              exact this
            simpa using this
          have hbody2 : (e :: rest2).dropLast.all (fun x => !terminalFlag x) = true := by
            apply List.all_eq_true.mpr
            intro x hx
            exact List.all_eq_true.mp hbody x (by simp [List.dropLast, hx])
          have hlast2 : ((e :: rest2).getLast?.map terminalFlag).getD false = true := by
            rw [List.getLast?_cons_cons] at hlast
            exact hlast
          have hstep : hackyStep ⟨st, n, some p⟩ d
              = ⟨st ++ [(n, recOf p d)], n, some (pendOf d)⟩ := by
            simp [hackyStep, hd]
          rw [List.foldl_cons, hstep,
            ih (st ++ [(n, recOf p d)]) n (pendOf d) (by simp) hbody2 hlast2,
            chainRecords_cons n p d (e :: rest2)]
          simp

theorem hackyFold_episode (epi : List StepData) (st : List (Nat × DataRecord)) (n : Nat) :
    completeEpisode epi = true →
    List.foldl hackyStep ⟨st, n, none⟩ epi = ⟨st ++ epRecords n epi, n + 1, none⟩ := by
  intro hc
  cases epi with
  | nil => simp [completeEpisode] at hc
  | cons d rest =>
      unfold completeEpisode at hc
      rw [Bool.and_eq_true, Bool.and_eq_true] at hc
      obtain ⟨⟨_, hbody⟩, hlast⟩ := hc
      cases rest with
      | nil =>
          have hterm : terminalFlag d = true := by
            simpa using hlast
          simp [hackyStep, hterm, epRecords]
      | cons e rest2 =>
          have hd : terminalFlag d = false := by
            have := List.all_eq_true.mp hbody d (by simp [List.dropLast])
            simpa using this
          have hbody2 : (e :: rest2).dropLast.all (fun x => !terminalFlag x) = true := by
            apply List.all_eq_true.mpr
            intro x hx
            exact List.all_eq_true.mp hbody x (by simp [List.dropLast, hx])
          have hlast2 : ((e :: rest2).getLast?.map terminalFlag).getD false = true := by
            rw [List.getLast?_cons_cons] at hlast
            exact hlast
          have hstep : hackyStep ⟨st, n, none⟩ d = ⟨st, n, some (pendOf d)⟩ := by
            simp [hackyStep, hd]
          rw [List.foldl_cons, hstep,
            hackyFold_tail (e :: rest2) st n (pendOf d) (by simp) hbody2 hlast2,
            epRecords_eq_chain]

theorem hackyFold_flatten (episodes : List (List StepData)) :
    ∀ (st : List (Nat × DataRecord)) (n : Nat),
      (∀ epi ∈ episodes, completeEpisode epi = true) →
      List.foldl hackyStep ⟨st, n, none⟩ episodes.flatten
        = ⟨st ++ expectedStoreFrom n episodes, n + episodes.length, none⟩ := by
  induction episodes with
  | nil => intro st n _; simp [expectedStoreFrom]
  | cons e rest ih =>
      intro st n hall
      rw [List.flatten_cons, List.foldl_append,
        hackyFold_episode e st n (hall e (by simp)),
        ih (st ++ epRecords n e) (n + 1) (fun epi h => hall epi (by simp [h])),
        expectedStoreFrom_cons]
      rw [List.append_assoc]
      have hlen : n + 1 + rest.length = n + (rest.length + 1) := by omega
      rw [hlen]
      rfl

/-- Claim C8 amended: at run end the dataset is serialized exactly once, and
for a run whose rollout steps form a sequence of complete episodes it holds,
for every rollout step except the final step of each episode, exactly one
record grouped under the index of the episode the step belongs to; the
record holds that step's reward, state, termination flag and info together
with the protagonist and adversary mean actions of the following step, and
each episode's final step (whose pending record is dropped at the boundary)
contributes no record. -/
theorem dataset_export_spec (episodes : List (List StepData)) :
    (∀ epi ∈ episodes, completeEpisode epi = true) →
    hackyRun episodes.flatten = ⟨expectedStore episodes, episodes.length, none⟩
    ∧ (datasetDumps episodes.flatten).length = 1
    ∧ datasetDumps episodes.flatten = [expectedStore episodes] := by
  intro hall
  have h := hackyFold_flatten episodes [] 0 hall
  have hrun : hackyRun episodes.flatten = ⟨expectedStore episodes, episodes.length, none⟩ := by
    unfold hackyRun expectedStore
    rw [h]
    simp
  refine ⟨hrun, rfl, ?_⟩
  unfold datasetDumps
  rw [hrun]

/-- Concrete instance of the C8 amended theorem: the two-step episode of the
counterexample, as a one-episode run, exports exactly the one record that
joins the first step's data with the second step's mean actions under
episode index 0. -/
theorem dataset_export_spec_witness :
    (∀ epi ∈ [[stepA, stepB]], completeEpisode epi = true)
    ∧ hackyRun ([[stepA, stepB]] : List (List StepData)).flatten
        = ⟨expectedStore [[stepA, stepB]], 1, none⟩ :=
  ⟨by decide, (dataset_export_spec [[stepA, stepB]] (by decide)).1⟩

end Arrl
